import Mathlib

/-!
Shallow embedding of the work-distribution / double-buffered execution
pipeline of the IPU path tracer (src/LoadBalancer.cpp, src/AccumulatedImage.cpp,
src/PathTracerApp.cpp, src/codelets/TraceRecord.hpp), together with proofs
about the embedded definitions.

Machine integers are modelled as `Nat` with an explicit `% 2^16` where the
source stores into a `std::uint16_t`; `float` colour channels are modelled as
`ℚ` (exact arithmetic); fallible operations return `Option`/`Except`.
-/

namespace IpuPathTrace

/-- The sentinel for `std::numeric_limits<std::uint16_t>::max()`. -/
def dummyCoord : Nat := 65535

/-- Embedding of `struct TraceRecord` (codelets/TraceRecord.hpp):
`u`/`v` are the pixel coordinates (uint16), `r`/`g`/`b` the colour
contribution (float32, modelled as ℚ), `sampleCount` and `pathLength`
uint16 statistics. -/
structure TraceRecord where
  u : Nat
  v : Nat
  r : ℚ
  g : ℚ
  b : ℚ
  sampleCount : Nat
  pathLength : Nat
  deriving Repr, DecidableEq

/-- The two-argument `TraceRecord` constructor: truncates the pixel
coordinates to uint16 and zeroes everything else. -/
def TraceRecord.init (pixelU pixelV : Nat) : TraceRecord :=
  { u := pixelU % 65536, v := pixelV % 65536,
    r := 0, g := 0, b := 0, sampleCount := 0, pathLength := 0 }

/-- A padding record as produced by `createTracingJobs`:
`workList.emplace_back(dummyCoord, dummyCoord)`. -/
def paddingRecord : TraceRecord := TraceRecord.init dummyCoord dummyCoord

/-- Embedding of `RecordList` = `std::vector<TraceRecord>`. -/
abbrev RecordList := List TraceRecord

/-- Embedding of `struct WorkList`: a double-buffered pair of record lists. -/
structure WorkList where
  activeWork : RecordList
  inactiveWork : RecordList
  deriving Repr, DecidableEq

/-- Constructor `WorkList::WorkList(std::size_t size)`: both buffers are default-value
initialised with `size` elements. -/
def WorkList.create (size : Nat) : WorkList :=
  { activeWork := List.replicate size (TraceRecord.init 0 0),
    inactiveWork := List.replicate size (TraceRecord.init 0 0) }

/-- Model of `WorkList::swap()`: `std::swap(activeWork, inactiveWork)` followed by a
`std::logic_error` throw when the new active buffer is empty.  The thrown
case (`std::logic_error("The new active worklist is empty.")`) is modelled
as `none` — the program aborts. -/
def WorkList.swap (w : WorkList) : Option WorkList :=
  let w' : WorkList := { activeWork := w.inactiveWork, inactiveWork := w.activeWork }
  if w'.activeWork.isEmpty then
    none
  else
    some w'

/-- The per-record accumulator reset applied by
`LoadBalancer::clearInactiveAccumulators` / `clearActiveAccumulators`:
`t.r = t.g = t.b = 0.f; t.pathLength = 0; t.sampleCount = 0;`. -/
def clearRecordAccumulators (t : TraceRecord) : TraceRecord :=
  { t with r := 0, g := 0, b := 0, pathLength := 0, sampleCount := 0 }

/-- Model of `LoadBalancer::clearInactiveAccumulators()`: reset the accumulator fields
of every record of the inactive buffer. -/
def clearInactiveAccumulators (w : WorkList) : WorkList :=
  { w with inactiveWork := w.inactiveWork.map clearRecordAccumulators }

/-- Model of `LoadBalancer::clearActiveAccumulators()`: reset the accumulator fields
of every record of the active buffer. -/
def clearActiveAccumulators (w : WorkList) : WorkList :=
  { w with activeWork := w.activeWork.map clearRecordAccumulators }

/-- Model of `roundSamplesPerPixel` (PathTracerApp.cpp): round `samplesPerPixel` up to
the next multiple of `samplesPerIpuStep`. -/
def roundSamplesPerPixel (samplesPerPixel samplesPerIpuStep : Nat) : Nat :=
  if samplesPerPixel % samplesPerIpuStep ≠ 0 then
    samplesPerPixel + (samplesPerIpuStep - samplesPerPixel % samplesPerIpuStep)
  else
    samplesPerPixel

/-- Result of running an embedded code fragment that may hit C++ undefined
behaviour (an out-of-bounds vector access) or exhaust the modelling fuel
(the loop has not terminated within the given number of rounds). -/
inductive LoopResult (α : Type) where
  | ok (val : α)
  | oob
  | outOfFuel
  deriving Repr, DecidableEq

/-- A checked `std::vector` element access at a (possibly negative) iterator
offset: `none` models an out-of-bounds dereference (UB). -/
def vecRead (xs : RecordList) (i : Int) : Option TraceRecord :=
  if i < 0 then none else xs.get? i.toNat

/-- One round of the cheap/expensive pairing loop of
`LoadBalancer::allocateWorkByPathLength` (the `for (auto& t : perTileWork)`
loop): every tile takes one item from the cheap cursor and one from the
expensive cursor, advancing both.  The source checks the cursor-crossing
condition only after this full round. -/
def pairingRound (sorted : RecordList) :
    List RecordList → Int → Int → Option (List RecordList × Int × Int)
  | [], s, l => some ([], s, l)
  | tile :: rest, s, l =>
    match vecRead sorted s, vecRead sorted l with
    | some a, some b =>
      match pairingRound sorted rest (s + 1) (l - 1) with
      | some (rest', s', l') => some ((tile ++ [a, b]) :: rest', s', l')
      | none => none
    | _, _ => none

/-- The `while (true)` pairing loop of `allocateWorkByPathLength`: run a full
round over all tiles, then break when `longItr <= shortItr`. -/
def pairingLoop (sorted : RecordList) :
    Nat → List RecordList → Int → Int → LoopResult (List RecordList)
  | 0, _, _, _ => .outOfFuel
  | fuel + 1, tiles, s, l =>
    match pairingRound sorted tiles s l with
    | none => .oob
    | some (tiles', s', l') =>
      if l' ≤ s' then .ok tiles' else pairingLoop sorted fuel tiles' s' l'

/-- The flattening stage of `allocateWorkByPathLength`: an output iterator
starting at `sorted.begin()` writes every collected per-tile item in tile
order; writing more items than `sorted` holds runs past `sorted.end()` (UB).
Writing fewer leaves the tail of `sorted` unchanged. -/
def flattenByTiles (sorted : RecordList) (tiles : List RecordList) : Option RecordList :=
  let flat := tiles.flatten
  if flat.length ≤ sorted.length then some (flat ++ sorted.drop flat.length) else none

/-- Model of `LoadBalancer::allocateWorkByPathLength` on the inactive work list with
`numJobs = jobs.size()` tiles.  The copy of the inactive list is sorted
ascending by `pathLength` (`std::sort`; its tie order is unspecified, the
model fixes insertion sort — every concrete input below has distinct keys).
Before the loop the source dereferences both cursors
(`shortItr->pathLength` / `longItr->pathLength` in the min/max log line),
which is out of bounds for an empty list.  `fuel` bounds the number of
pairing rounds the model executes. -/
def allocateWorkByPathLength (numJobs : Nat) (inactive : RecordList) (fuel : Nat) :
    LoopResult RecordList :=
  let sorted := List.insertionSort (fun a b => a.pathLength ≤ b.pathLength) inactive
  match vecRead sorted 0, vecRead sorted ((sorted.length : Int) - 1) with
  | some _, some _ =>
    match pairingLoop sorted fuel (List.replicate numJobs []) 0 ((sorted.length : Int) - 1) with
    | .ok tiles =>
      match flattenByTiles sorted tiles with
      | some result => .ok result
      | none => .oob
    | .oob => .oob
    | .outOfFuel => .outOfFuel
  | _, _ => .oob

/-- The non-padding pixel-coordinate multiset of a record list (a padding
item carries the uint16 sentinel in both fields). -/
def coordMultiset (xs : RecordList) : Multiset (Nat × Nat) :=
  ↑((xs.filter (fun t => ¬(t.u = dummyCoord ∧ t.v = dummyCoord))).map (fun t => (t.u, t.v)))

/-- A record with given coordinates and path length (colour zero, one sample),
used to build concrete work lists. -/
def mkRec (u v pl : Nat) : TraceRecord :=
  { u := u, v := v, r := 0, g := 0, b := 0, sampleCount := 1, pathLength := pl }

/-- Bit length of a natural number below 2^64 (fuel-bound binary recursion),
used to locate a value's binade: `bitLen n = ⌊log2 n⌋ + 1` for `1 ≤ n`, and
`bitLen 0 = 0`. -/
def bitLenAux : Nat → Nat → Nat
  | 0, _ => 0
  | fuel + 1, n => if n = 0 then 0 else bitLenAux fuel (n / 2) + 1

/-- Bit length entry point (64 bits of fuel cover every value the embedded
code produces). -/
def bitLen (n : Nat) : Nat := bitLenAux 64 n

/-- Binade exponent of the positive rational `n / d`: the integer `e` with
`2^e ≤ n / d < 2^(e+1)` (for normal-range values). -/
def floatExp (n d : ℕ) : ℤ :=
  let L : ℤ := (bitLen n : ℤ) - (bitLen d : ℤ)
  if (if 0 ≤ L then 2 ^ L.toNat * d ≤ n else d ≤ n * 2 ^ (-L).toNat) then L else L - 1

/-- Round the nonnegative rational `n / d` to the nearest IEEE-754 binary32
(`float`) value, round half to even, returned as a mantissa/exponent pair
`(m, s)` whose value is `m * 2^s` with `2^23 ≤ m ≤ 2^24` (or `m = 0`).  Only
normal-range values occur in the embedded code (pixel counts, tile counts
and their quotients), so underflow/overflow need no modelling. -/
def floatRN (n d : ℕ) : ℕ × ℤ :=
  let s : ℤ := floatExp n d - 23
  let bigN := n * 2 ^ (-s).toNat
  let bigD := d * 2 ^ s.toNat
  let lo := bigN / bigD
  let mantissa : ℕ :=
    if 2 * (bigN % bigD) < bigD then lo
    else if bigD < 2 * (bigN % bigD) then lo + 1
    else if lo % 2 = 0 then lo else lo + 1
  (mantissa, s)

/-- Value of `std::ceil` on the float `m * 2^s`, converted to `unsigned`
(the value is nonnegative and in range for every input the embedded code
produces). -/
def floatCeilToNat (m : ℕ) (s : ℤ) : ℕ :=
  if 0 ≤ s then m * 2 ^ s.toNat
  else (m + 2 ^ (-s).toNat - 1) / 2 ^ (-s).toNat

/-- Model of `calculateMaxRaysPerTile` (LoadBalancer.cpp): the larger of the
worker count and `std::ceil(totalRayCount / (float)numTiles)`.  The source
computes the share in 32-bit float: both operands are converted to `float`
(round to nearest even) and their quotient is correctly rounded again, so
for pixel counts above 2^24 the result can fall below the exact ceiling.
For `numTiles = 0` the quotient is infinite and its conversion to an
unsigned integer is UB, modelled as `none`. -/
def calculateMaxRaysPerTile (imageWidth imageHeight numTiles numWorkers : Nat) : Option Nat :=
  if numTiles = 0 then none
  else
    let x := floatRN (imageWidth * imageHeight) 1
    let y := floatRN numTiles 1
    let q := floatRN (x.1 * 2 ^ (x.2 - y.2).toNat) (y.1 * 2 ^ (y.2 - x.2).toNat)
    some (max numWorkers (floatCeilToNat q.1 q.2))

/-- Model of `createWorkListForImage` (LoadBalancer.cpp): one record per pixel, rows
outer, columns inner (`emplace_back(c, r)` stores through the uint16
constructor). -/
def createWorkListForImage (imageWidth imageHeight : Nat) : RecordList :=
  (List.range imageHeight).flatMap
    (fun row => (List.range imageWidth).map (fun col => TraceRecord.init col row))

/-- Model of `createTracingJobs` (LoadBalancer.cpp): pad the per-pixel work list with
sentinel records up to `maxRaysPerTile * numTiles` items, then hand each
tile the next contiguous chunk of `maxRaysPerTile` items. -/
def createTracingJobs (imageWidth imageHeight numTiles numWorkers : Nat) :
    Option (List RecordList) :=
  (calculateMaxRaysPerTile imageWidth imageHeight numTiles numWorkers).map
    (fun maxRaysPerTile =>
      let paddedRayCount := maxRaysPerTile * numTiles
      let workList := createWorkListForImage imageWidth imageHeight ++
        List.replicate (paddedRayCount - (createWorkListForImage imageWidth imageHeight).length)
          paddingRecord
      (List.range numTiles).map
        (fun t => (workList.drop (t * maxRaysPerTile)).take maxRaysPerTile))

/-- A 3-channel pixel value; channel order as stored by the source
(`cv::Vec3f bgr(t.b, t.g, t.r)`): channel 0 = blue, 1 = green, 2 = red. -/
abbrev Vec3 := ℚ × ℚ × ℚ

/-- Embedding of the `cv::Mat hdrImage` (CV_32FC3): dimensions plus pixel
contents addressed `pix row col` (OpenCV `at<Vec3f>(r, c)`). -/
structure HdrImage where
  cols : Nat
  rows : Nat
  pix : Nat → Nat → Vec3

/-- Model of `AccumulatedImage::AccumulatedImage(w, h)` together with `reset()`:
a zero-initialised film of the given dimensions. -/
def resetImage (w h : Nat) : HdrImage :=
  { cols := w, rows := h, pix := fun _ _ => (0, 0, 0) }

/-- One record's scaled contribution:
`cv::Vec3f bgr(t.b, t.g, t.r)` times `scale = 1.f / t.sampleCount`. -/
def contribution (t : TraceRecord) : Vec3 :=
  ((1 : ℚ) / (t.sampleCount : ℚ)) • (((t.b, t.g, t.r)) : Vec3)

/-- One iteration of the `AccumulatedImage::accumulate` loop: skip the record
when its pixel coordinate is outside the image (`c >= cols || r >= rows`,
i.e. worklist padding), otherwise add the scaled BGR contribution to the
pixel. -/
def accumulateRecord (img : HdrImage) (t : TraceRecord) : HdrImage :=
  if t.u ≥ img.cols ∨ t.v ≥ img.rows then img
  else { img with pix := fun row col =>
      if row = t.v ∧ col = t.u then img.pix row col + contribution t
      else img.pix row col }

/-- Model of `AccumulatedImage::accumulate(traces)`: fold the record batch into the
persistent HDR image. -/
def accumulate (img : HdrImage) (traces : RecordList) : HdrImage :=
  traces.foldl accumulateRecord img

/-- The LDR byte image (`cv::Mat image`, CV_8UC3), addressed row/col;
channel values are the quantized bytes. -/
abbrev LdrImage := Nat → Nat → ℤ × ℤ × ℤ

/-- Embedding of `struct AccumulatedImage`: the persistent HDR accumulator
plus the tone-mapped byte image that `updateLdrImage` (re)writes. -/
structure AccumulatedImageState where
  hdrImage : HdrImage
  image : LdrImage

/-- Model of `ldrImage.convertTo(image, CV_8UC3, 255.0)` per channel: scale by 255 and
`saturate_cast<uchar>` (round to nearest integer, clamp to [0, 255]). -/
def byteQuantize (v : ℚ) : ℤ := max 0 (min 255 ⌊255 * v + 1 / 2⌋)

/-- Model of `AccumulatedImage::updateLdrImage(step, exposure, gamma)`: tone map the
snapshot `hdrImage * 1.f/step` with exposure scale `pow(2.f, exposure)` and
gamma curve `pow(x, 1/gamma)`, quantize to bytes and store the result in the
`image` member (the HDR accumulator is only read).  `pw` stands for the pure,
deterministic `std::pow`; it is a parameter and the theorems below hold for
every choice of it. -/
def updateLdrImage (pw : ℚ → ℚ → ℚ) (st : AccumulatedImageState)
    (step : Nat) (exposure gamma : ℚ) : AccumulatedImageState :=
  let scaled : Nat → Nat → Vec3 :=
    fun row col => ((1 : ℚ) / (step : ℚ)) • st.hdrImage.pix row col
  let exposureScale := pw 2 exposure
  let invGamma := (1 : ℚ) / gamma
  let tone : ℚ → ℚ := fun v => pw (v * exposureScale) invGamma
  { st with image := fun row col =>
      (byteQuantize (tone (scaled row col).1),
       byteQuantize (tone (scaled row col).2.1),
       byteQuantize (tone (scaled row col).2.2)) }

/-- The pipeline events the driver of `PathTracerApp::execute` performs, in
program order: run the IPU render programs for a step, join the async host
task (`hostProcessing.waitForCompletion()`), swap the work-list buffers, and
submit the next async host task (`hostProcessing.run(...)`). -/
inductive DriverEvent where
  | ipuRender (step : Nat)
  | waitHost
  | swapBuffers
  | submitHostTask (step : Nat)
  deriving Repr, DecidableEq

/-- Modelled from the spec: the semantics of `AsyncTask` (its header
`AsyncTask.hpp` is not among the sources; only `PathTracerApp.cpp` calls it).
Per the spec, the task slot "holds at most one in-flight unit of deferred
work"; `run(work)` "must reject (fatal precondition violation) being called
again before the previous invocation's completion was awaited";
`waitForCompletion()` "blocks until the most recently submitted work has
finished; a no-op if nothing is pending".  The checker walks the driver's
event list threading the in-flight slot: a submit or a buffer swap is legal
only with no task in flight, a join clears the slot, and at the end of the
trace nothing may remain in flight (so the final join has observed the task
that performs the last image save). -/
def oneTaskInFlight : Option Nat → List DriverEvent → Bool
  | st, [] => decide (st = none)
  | st, DriverEvent.ipuRender _ :: es => oneTaskInFlight st es
  | _, DriverEvent.waitHost :: es => oneTaskInFlight none es
  | st, DriverEvent.swapBuffers :: es => decide (st = none) && oneTaskInFlight st es
  | st, DriverEvent.submitHostTask k :: es =>
      decide (st = none) && oneTaskInFlight (some k) es

/-- The event sequence of the render loop of `PathTracerApp::execute` on the
headless path (no interactive UI): for each step the driver runs the IPU
programs, joins the previous async host task, swaps the work-list buffers and
submits the next async host task — the task that accumulates the inactive
buffer, rebalances, and on the last step saves the images — and after the
loop issues one final join. -/
def renderLoopTrace (steps : Nat) : List DriverEvent :=
  (List.range steps).flatMap (fun i =>
    [DriverEvent.ipuRender (i + 1), DriverEvent.waitHost, DriverEvent.swapBuffers,
     DriverEvent.submitHostTask (i + 1)]) ++ [DriverEvent.waitHost]

/-- A concrete 4×4 test batch: one one-sample item per pixel (row-major),
item `i` at column `i % 4`, row `i / 4`, with colour `(r, g, b) = (i, 2i, 3i)`. -/
def batch16 : RecordList :=
  [{ u := 0, v := 0, r := 0, g := 0, b := 0, sampleCount := 1, pathLength := 0 },
   { u := 1, v := 0, r := 1, g := 2, b := 3, sampleCount := 1, pathLength := 0 },
   { u := 2, v := 0, r := 2, g := 4, b := 6, sampleCount := 1, pathLength := 0 },
   { u := 3, v := 0, r := 3, g := 6, b := 9, sampleCount := 1, pathLength := 0 },
   { u := 0, v := 1, r := 4, g := 8, b := 12, sampleCount := 1, pathLength := 0 },
   { u := 1, v := 1, r := 5, g := 10, b := 15, sampleCount := 1, pathLength := 0 },
   { u := 2, v := 1, r := 6, g := 12, b := 18, sampleCount := 1, pathLength := 0 },
   { u := 3, v := 1, r := 7, g := 14, b := 21, sampleCount := 1, pathLength := 0 },
   { u := 0, v := 2, r := 8, g := 16, b := 24, sampleCount := 1, pathLength := 0 },
   { u := 1, v := 2, r := 9, g := 18, b := 27, sampleCount := 1, pathLength := 0 },
   { u := 2, v := 2, r := 10, g := 20, b := 30, sampleCount := 1, pathLength := 0 },
   { u := 3, v := 2, r := 11, g := 22, b := 33, sampleCount := 1, pathLength := 0 },
   { u := 0, v := 3, r := 12, g := 24, b := 36, sampleCount := 1, pathLength := 0 },
   { u := 1, v := 3, r := 13, g := 26, b := 39, sampleCount := 1, pathLength := 0 },
   { u := 2, v := 3, r := 14, g := 28, b := 42, sampleCount := 1, pathLength := 0 },
   { u := 3, v := 3, r := 15, g := 30, b := 45, sampleCount := 1, pathLength := 0 }]

/-- The item of `batch16` at pixel (column 3, row 2). -/
def item11 : TraceRecord :=
  { u := 3, v := 2, r := 11, g := 22, b := 33, sampleCount := 1, pathLength := 0 }

end IpuPathTrace

namespace IpuPathTrace

theorem init_eq_iff {a b a' b' : Nat} (ha : a < 65536) (hb : b < 65536)
    (ha' : a' < 65536) (hb' : b' < 65536) :
    TraceRecord.init a b = TraceRecord.init a' b' ↔ a = a' ∧ b = b' := by
  simp [TraceRecord.init, TraceRecord.mk.injEq, Nat.mod_eq_of_lt ha, Nat.mod_eq_of_lt hb,
    Nat.mod_eq_of_lt ha', Nat.mod_eq_of_lt hb']

theorem length_createWorkListForImage (w h : Nat) :
    (createWorkListForImage w h).length = w * h := by
  unfold createWorkListForImage
  rw [List.length_flatMap]
  have : (List.map (List.length ∘ fun row => (List.range w).map
      (fun col => TraceRecord.init col row)) (List.range h)) = List.replicate h w := by
    rw [List.eq_replicate_iff]
    refine ⟨by simp, ?_⟩
    intro x hx
    rw [List.mem_map] at hx
    rcases hx with ⟨row, _, hrow⟩
    simp [← hrow]
  rw [this, List.sum_replicate, smul_eq_mul, Nat.mul_comm]

theorem init_mem_createWorkListForImage {w h a b : Nat} (ha : a < w) (hb : b < h) :
    TraceRecord.init a b ∈ createWorkListForImage w h := by
  unfold createWorkListForImage
  rw [List.mem_flatMap]
  exact ⟨b, List.mem_range.mpr hb, List.mem_map.mpr ⟨a, List.mem_range.mpr ha, rfl⟩⟩

theorem nodup_createWorkListForImage (w h : Nat) (hw : w ≤ 65536) (hh : h ≤ 65536) :
    (createWorkListForImage w h).Nodup := by
  unfold createWorkListForImage
  rw [List.nodup_flatMap]
  constructor
  · intro row hrow
    rw [List.mem_range] at hrow
    refine List.Nodup.map_on ?_ (List.nodup_range w)
    intro x hx y hy hxy
    rw [List.mem_range] at hx hy
    exact ((init_eq_iff (by omega) (by omega) (by omega) (by omega)).mp hxy).1
  · rw [List.pairwise_iff_get]
    intro i j hij
    rw [List.get_range, List.get_range]
    intro x hxi hxj
    rw [List.mem_map] at hxi hxj
    rcases hxi with ⟨ci, hci, hei⟩
    rcases hxj with ⟨cj, hcj, hej⟩
    rw [List.mem_range] at hci hcj
    have hiv : (i : Nat) < h := by have := i.isLt; simpa using this
    have hjv : (j : Nat) < h := by have := j.isLt; simpa using this
    have := (@init_eq_iff ci (i : Nat) cj (j : Nat)
      (by omega) (by omega) (by omega) (by omega)).mp (hei.trans hej.symm)
    omega

theorem flatten_chunks {α : Type} (k : Nat) :
    ∀ (n : Nat) (xs : List α), xs.length = n * k →
      ((List.range n).map (fun t => (xs.drop (t * k)).take k)).flatten = xs := by
  intro n
  induction n with
  | zero =>
    intro xs hxs
    simp only [Nat.zero_mul] at hxs
    simp [List.eq_nil_of_length_eq_zero hxs]
  | succ n ih =>
    intro xs hxs
    rw [List.range_succ_eq_map, List.map_cons, List.map_map, List.flatten_cons]
    have h0 : (xs.drop (0 * k)).take k = xs.take k := by simp
    rw [h0]
    have hcomp : ((fun t => (xs.drop (t * k)).take k) ∘ Nat.succ) =
        (fun t => (((xs.drop k).drop (t * k)).take k)) := by
      funext t
      simp only [Function.comp]
      rw [List.drop_drop]
      have : Nat.succ t * k = k + t * k := by
        rw [Nat.succ_mul]; exact Nat.add_comm _ _
      rw [this]
    rw [hcomp, ih (xs.drop k) (by rw [List.length_drop, hxs, Nat.succ_mul]; omega)]
    exact List.take_append_drop k xs

theorem chunk_length {α : Type} (k n t : Nat) (xs : List α) (hxs : xs.length = n * k)
    (ht : t < n) : ((xs.drop (t * k)).take k).length = k := by
  rw [List.length_take, List.length_drop, hxs]
  have h1 : t * k + k ≤ n * k := by
    have h2 : (t + 1) * k ≤ n * k := Nat.mul_le_mul_right _ (by omega)
    calc t * k + k = (t + 1) * k := by ring
    _ ≤ n * k := h2
  omega

/-- C6: the claim fails on the code.  The per-tile ray count is computed
with a 32-bit float ceiling (`std::ceil(totalRayCount / (float)numTiles)`,
LoadBalancer.cpp:26); for a 24929×673 image — 16777217 = 2^24 + 1 pixels,
not representable in float32 — on a single tile the pixel count rounds down
to 2^24, so `createTracingJobs` pads nothing and hands the one tile only the
first 16777216 of the 16777217 per-pixel records: the returned work lists
cannot contain each of the 16777217 distinct pixel coordinates exactly once
(the record of the last pixel, (24928, 672), is dropped), contradicting the
source's own comment that the work list "contains every pixel in the
image". -/
theorem createTracingJobs_drops_pixel :
    calculateMaxRaysPerTile 24929 673 1 1 = some 16777216 ∧
    createTracingJobs 24929 673 1 1 =
      some [(createWorkListForImage 24929 673).take 16777216] ∧
    (createWorkListForImage 24929 673).length = 24929 * 673 ∧
    ((createWorkListForImage 24929 673).take 16777216).length = 16777216 ∧
    16777216 < 24929 * 673 := by
  have hcalc : calculateMaxRaysPerTile 24929 673 1 1 = some 16777216 := by decide
  have hlen : (createWorkListForImage 24929 673).length = 24929 * 673 :=
    length_createWorkListForImage 24929 673
  have hlen' : (createWorkListForImage 24929 673).length = 16777217 := by
    rw [hlen]
  have hwl : createWorkListForImage 24929 673 ++
      List.replicate (16777216 * 1 - (createWorkListForImage 24929 673).length)
        paddingRecord = createWorkListForImage 24929 673 := by
    rw [hlen']
    simp
  refine ⟨hcalc, ?_, hlen, ?_, by norm_num⟩
  · unfold createTracingJobs
    rw [hcalc]
    simp only [Option.map_some]
    show some ((List.range 1).map (fun t =>
        ((createWorkListForImage 24929 673 ++
          List.replicate (16777216 * 1 - (createWorkListForImage 24929 673).length)
            paddingRecord).drop (t * 16777216)).take 16777216)) = _
    rw [hwl]
    simp [List.range_succ]
  · rw [List.length_take, hlen']
    omega

/-- C5: `WorkList::swap` exchanges the two buffers — a successful swap yields
the exchanged pair, a double swap restores the original contents — and the
swap fails (throws) exactly when the buffer that becomes active after the
exchange (the pre-swap inactive buffer) is empty. -/
theorem workList_swap_spec (w : WorkList)
    (hact : w.activeWork ≠ []) (hinact : w.inactiveWork ≠ []) :
    w.swap = some { activeWork := w.inactiveWork, inactiveWork := w.activeWork } ∧
    (w.swap >>= WorkList.swap) = some w ∧
    (∀ v : WorkList, v.swap = none ↔ v.inactiveWork = []) := by
  have h1 : w.swap = some { activeWork := w.inactiveWork, inactiveWork := w.activeWork } := by
    unfold WorkList.swap
    simp [List.isEmpty_iff, hinact]
  refine ⟨h1, ?_, ?_⟩
  · rw [h1]
    show WorkList.swap _ = _
    unfold WorkList.swap
    simp [List.isEmpty_iff, hact]
  · intro v
    unfold WorkList.swap
    by_cases hv : v.inactiveWork = [] <;> simp [List.isEmpty_iff, hv]

/-- Witness for `workList_swap_spec` at a concrete one-record work list. -/
theorem workList_swap_spec_witness :
    ([TraceRecord.init 1 2] ≠ ([] : RecordList)) ∧
    (WorkList.swap { activeWork := [TraceRecord.init 1 2],
                     inactiveWork := [TraceRecord.init 3 4] }) =
      some { activeWork := [TraceRecord.init 3 4],
                  inactiveWork := [TraceRecord.init 1 2] } :=
  ⟨by decide,
   (workList_swap_spec
      { activeWork := [TraceRecord.init 1 2], inactiveWork := [TraceRecord.init 3 4] }
      (by decide) (by decide)).1⟩

/-- C9: the accumulator-reset operations zero `r`, `g`, `b`, `pathLength` and
`sampleCount` of every item of the designated buffer, keep every item's pixel
coordinates, keep the buffer's length, and leave the other buffer untouched. -/
theorem clearAccumulators_spec (w : WorkList) :
    ((clearInactiveAccumulators w).inactiveWork.length = w.inactiveWork.length ∧
     (clearInactiveAccumulators w).activeWork = w.activeWork ∧
     ∀ i : Nat,
       (clearInactiveAccumulators w).inactiveWork.get? i =
         (w.inactiveWork.get? i).map (fun t =>
           { t with r := 0, g := 0, b := 0, pathLength := 0, sampleCount := 0 })) ∧
    ((clearActiveAccumulators w).activeWork.length = w.activeWork.length ∧
     (clearActiveAccumulators w).inactiveWork = w.inactiveWork ∧
     ∀ i : Nat,
       (clearActiveAccumulators w).activeWork.get? i =
         (w.activeWork.get? i).map (fun t =>
           { t with r := 0, g := 0, b := 0, pathLength := 0, sampleCount := 0 })) := by
  constructor
  · refine ⟨by simp [clearInactiveAccumulators], rfl, ?_⟩
    intro i
    simp only [clearInactiveAccumulators, List.get?_map]
    cases w.inactiveWork.get? i <;> simp [clearRecordAccumulators]
  · refine ⟨by simp [clearActiveAccumulators], rfl, ?_⟩
    intro i
    simp only [clearActiveAccumulators, List.get?_map]
    cases w.activeWork.get? i <;> simp [clearRecordAccumulators]

/-- C1: the rebalance does NOT preserve the multiset of non-padding pixel
coordinates for every inactive work list.  At the three-item inactive list
with path lengths 1, 2, 3 and a single tile, the pairing loop stops after one
round having consumed only the two outer items, and the flattening stage
overwrites just the first two slots: the output is `[(1,0), (3,0), (3,0)]` —
item `(2,0)` is dropped and item `(3,0)` duplicated.  (The cursor-crossing
check runs only after a full round over all tiles, not after every lane as
the spec requires.) -/
theorem allocateWork_not_conservative :
    allocateWorkByPathLength 1 [mkRec 1 0 1, mkRec 2 0 2, mkRec 3 0 3] 10 =
      LoopResult.ok [mkRec 1 0 1, mkRec 3 0 3, mkRec 3 0 3] ∧
    coordMultiset [mkRec 1 0 1, mkRec 3 0 3, mkRec 3 0 3] ≠
      coordMultiset [mkRec 1 0 1, mkRec 2 0 2, mkRec 3 0 3] := by
  constructor
  · decide
  · decide

/-- C2: the pairing loop is NOT in-bounds for the degenerate inputs the claim
lists.  For a size-1 inactive list with one tile the loop pushes the single
item twice and the flatten stage writes two items into the one-element
buffer (out-of-bounds write); for a size-0 list the pre-loop cursor
dereference is already out of bounds; for an all-equal-cost list of six
items with two tiles the loop runs a second full round after the cursors
have crossed, pushing eight items for a six-element buffer. -/
theorem allocateWork_out_of_bounds :
    allocateWorkByPathLength 1 [mkRec 1 0 1] 10 = LoopResult.oob ∧
    allocateWorkByPathLength 2 ([] : RecordList) 10 = LoopResult.oob ∧
    allocateWorkByPathLength 2 ((List.range 6).map (fun i => mkRec i 0 5)) 10 =
      LoopResult.oob := by
  refine ⟨by decide, by decide, by decide⟩

/-- C10: `roundSamplesPerPixel` returns the least multiple of
`samplesPerIpuStep` that is ≥ `samplesPerPixel`, and returns its input
unchanged exactly when the input is already divisible. -/
theorem roundSamplesPerPixel_spec (spp k : Nat) (hk : 0 < k) :
    (roundSamplesPerPixel spp k) % k = 0 ∧
    spp ≤ roundSamplesPerPixel spp k ∧
    (∀ m : Nat, m % k = 0 → spp ≤ m → roundSamplesPerPixel spp k ≤ m) ∧
    (roundSamplesPerPixel spp k = spp ↔ spp % k = 0) := by
  unfold roundSamplesPerPixel
  by_cases h : spp % k = 0
  · rw [if_neg (by simp [h])]
    exact ⟨h, le_refl _, fun m _ hm => hm, by simp [h]⟩
  · have hrem : spp % k < k := Nat.mod_lt _ hk
    have hdm := Nat.div_add_mod spp k
    rw [if_pos (by simpa using h)]
    have hval : spp + (k - spp % k) = k * (spp / k) + k := by omega
    have hval' : k * (spp / k) + k = k * (spp / k + 1) := by ring
    refine ⟨?_, Nat.le_add_right _ _, ?_, ?_⟩
    · rw [hval, hval', Nat.mul_mod_right]
    · intro m hm hsppm
      rcases Nat.dvd_of_mod_eq_zero hm with ⟨c, hc⟩
      subst hc
      rw [hval, hval']
      have hqc : spp / k + 1 ≤ c := by
        by_contra hcon
        push_neg at hcon
        have : k * c ≤ k * (spp / k) := Nat.mul_le_mul_left _ (by omega)
        omega
      exact Nat.mul_le_mul_left _ hqc
    · constructor
      · intro heq
        omega
      · intro hc
        exact absurd hc h

/-- Witness for `roundSamplesPerPixel_spec` at spp = 10, k = 4. -/
theorem roundSamplesPerPixel_spec_witness :
    roundSamplesPerPixel 10 4 % 4 = 0 ∧ 10 ≤ roundSamplesPerPixel 10 4 :=
  ⟨(roundSamplesPerPixel_spec 10 4 (by decide)).1,
   (roundSamplesPerPixel_spec 10 4 (by decide)).2.1⟩

theorem accumulateRecord_cols (img : HdrImage) (t : TraceRecord) :
    (accumulateRecord img t).cols = img.cols := by
  unfold accumulateRecord
  split <;> rfl

theorem accumulateRecord_rows (img : HdrImage) (t : TraceRecord) :
    (accumulateRecord img t).rows = img.rows := by
  unfold accumulateRecord
  split <;> rfl

theorem accumulate_cons (img : HdrImage) (t : TraceRecord) (ts : RecordList) :
    accumulate img (t :: ts) = accumulate (accumulateRecord img t) ts := rfl

/-- C4: records whose pixel coordinates fall outside the image (the padding
sentinel or any other out-of-bounds value) change no pixel and raise no
error (`accumulate` is a total function of the model): accumulating any
batch equals accumulating the batch with every out-of-bounds record
removed. -/
theorem accumulate_padding_exclusion (img : HdrImage) (ts : RecordList) :
    accumulate img ts = accumulate img
      (ts.filter (fun t => decide (t.u < img.cols) && decide (t.v < img.rows))) := by
  induction ts generalizing img with
  | nil => rfl
  | cons t ts ih =>
    rw [List.filter_cons]
    by_cases hb : t.u < img.cols ∧ t.v < img.rows
    · rw [if_pos (by simp [hb.1, hb.2])]
      rw [accumulate_cons, accumulate_cons]
      have h := ih (accumulateRecord img t)
      simp only [accumulateRecord_cols, accumulateRecord_rows] at h
      exact h
    · have hskip : accumulateRecord img t = img := by
        unfold accumulateRecord
        rw [if_pos (by omega)]
      rw [if_neg (by simp only [Bool.and_eq_true, decide_eq_true_eq]; exact hb)]
      rw [accumulate_cons, hskip]
      exact ih img

theorem accumulate_pix (ts : RecordList) (img : HdrImage) (c r : Nat) :
    (accumulate img ts).pix r c = img.pix r c +
      ((ts.filter (fun t => decide (t.u = c) && decide (t.v = r) &&
          decide (t.u < img.cols) && decide (t.v < img.rows))).map contribution).sum := by
  induction ts generalizing img with
  | nil => simp [accumulate]
  | cons t ts ih =>
    rw [accumulate_cons, List.filter_cons]
    have h := ih (accumulateRecord img t)
    simp only [accumulateRecord_cols, accumulateRecord_rows] at h
    rw [h]
    by_cases hb : t.u < img.cols ∧ t.v < img.rows
    · by_cases hc : t.u = c ∧ t.v = r
      · rw [if_pos (by simp only [Bool.and_eq_true, decide_eq_true_eq]; omega)]
        have hpix : (accumulateRecord img t).pix r c = img.pix r c + contribution t := by
          unfold accumulateRecord
          rw [if_neg (by omega)]
          show (if r = t.v ∧ c = t.u then img.pix r c + contribution t else img.pix r c) = _
          rw [if_pos ⟨hc.2.symm, hc.1.symm⟩]
        rw [hpix, List.map_cons, List.sum_cons, add_assoc]
      · rw [if_neg (by simp only [Bool.and_eq_true, decide_eq_true_eq]; tauto)]
        have hpix : (accumulateRecord img t).pix r c = img.pix r c := by
          unfold accumulateRecord
          rw [if_neg (by omega)]
          show (if r = t.v ∧ c = t.u then img.pix r c + contribution t else img.pix r c) = _
          rw [if_neg (by tauto)]
        rw [hpix]
    · rw [if_neg (by simp only [Bool.and_eq_true, decide_eq_true_eq]; tauto)]
      have hskip : accumulateRecord img t = img := by
        unfold accumulateRecord
        rw [if_pos (by omega)]
      rw [hskip]

theorem filter_coord_singleton (t : TraceRecord) :
    ∀ ts : RecordList, t ∈ ts → (ts.map (fun s => (s.u, s.v))).Nodup →
      ts.filter (fun s => decide (s.u = t.u) && decide (s.v = t.v)) = [t] := by
  intro ts
  induction ts with
  | nil => intro h; exact absurd h (List.not_mem_nil t)
  | cons s ts ih =>
    intro hmem hnodup
    rw [List.map_cons, List.nodup_cons] at hnodup
    rcases hnodup with ⟨hnotin, hnd⟩
    rw [List.filter_cons]
    rcases List.mem_cons.mp hmem with rfl | hts
    · rw [if_pos (by simp)]
      have hnil : ts.filter (fun s' => decide (s'.u = t.u) && decide (s'.v = t.v)) = [] := by
        rw [List.filter_eq_nil_iff]
        intro a ha hpa
        simp only [Bool.and_eq_true, decide_eq_true_eq] at hpa
        exact hnotin (List.mem_map.mpr ⟨a, ha, by rw [hpa.1, hpa.2]⟩)
      rw [hnil]
    · rw [if_neg ?_]
      · exact ih hts hnd
      · simp only [Bool.and_eq_true, decide_eq_true_eq]
        rintro ⟨h1, h2⟩
        exact hnotin (List.mem_map.mpr ⟨t, hts, by rw [h1, h2]⟩)

/-- C3: (1) for every batch whose items carry at least one sample,
`accumulate` adds, at every in-bounds pixel, the sum of
`contribution * (1 / sampleCount)` over the batch items addressed to that
pixel (the incremental running-average merge); (2) in particular,
accumulating a batch of in-bounds items with pairwise-distinct pixel
coordinates and `sampleCount = 1` into a zero-initialised film leaves each
item's colour channels readable, exactly, at its pixel (stored in the
source's BGR channel order). -/
theorem accumulate_running_average :
    (∀ (img : HdrImage) (ts : RecordList) (c r : Nat),
        c < img.cols → r < img.rows → (∀ t ∈ ts, 0 < t.sampleCount) →
        (accumulate img ts).pix r c = img.pix r c +
          ((ts.filter (fun t => decide (t.u = c) && decide (t.v = r) &&
              decide (t.u < img.cols) && decide (t.v < img.rows))).map contribution).sum) ∧
    (∀ (w h : Nat) (ts : RecordList),
        (∀ t ∈ ts, t.u < w ∧ t.v < h ∧ t.sampleCount = 1) →
        (ts.map (fun s => (s.u, s.v))).Nodup →
        ∀ t ∈ ts, (accumulate (resetImage w h) ts).pix t.v t.u = (t.b, t.g, t.r)) := by
  constructor
  · intro img ts c r _ _ _
    exact accumulate_pix ts img c r
  · intro w h ts hin hnodup t ht
    rw [accumulate_pix]
    have hfilter : ts.filter (fun s => decide (s.u = t.u) && decide (s.v = t.v) &&
        decide (s.u < (resetImage w h).cols) && decide (s.v < (resetImage w h).rows)) = [t] := by
      rw [List.filter_congr (q := fun s => decide (s.u = t.u) && decide (s.v = t.v))
        (fun x hx => by
          rcases hin x hx with ⟨hxu, hxv, _⟩
          simp [resetImage, hxu, hxv])]
      exact filter_coord_singleton t ts ht hnodup
    rw [hfilter]
    rcases hin t ht with ⟨_, _, hsc⟩
    show (0, 0, 0) + _ = _
    simp [contribution, hsc]

/-- Witness for `accumulate_running_average`: the spec's 4×4 scenario — a
single batch of 16 one-sample items with distinct colours, one per pixel;
the pixel (col 3, row 2), written by item 11, reads back that item's
colour. -/
theorem accumulate_running_average_witness :
    (accumulate (resetImage 4 4) batch16).pix item11.v item11.u =
      (item11.b, item11.g, item11.r) := by
  have hin : ∀ t ∈ batch16, t.u < 4 ∧ t.v < 4 ∧ t.sampleCount = 1 := by decide
  have hnd : (batch16.map (fun s => (s.u, s.v))).Nodup := by decide
  have hmem : item11 ∈ batch16 := by decide
  exact accumulate_running_average.2 4 4 batch16 hin hnd item11 hmem

/-- C7: `updateLdrImage` never mutates the HDR accumulator (neither the
first nor a repeated call), and calling it twice in a row with the same
`step`, `exposure` and `gamma` and no intervening `accumulate` leaves the
state — in particular the quantized byte image — bit-identical to the state
after the first call, for every choice of the `pow` implementation. -/
theorem updateLdrImage_idempotent (pw : ℚ → ℚ → ℚ) (st : AccumulatedImageState)
    (step : Nat) (exposure gamma : ℚ) :
    (updateLdrImage pw st step exposure gamma).hdrImage = st.hdrImage ∧
    (updateLdrImage pw (updateLdrImage pw st step exposure gamma)
        step exposure gamma).hdrImage = st.hdrImage ∧
    updateLdrImage pw (updateLdrImage pw st step exposure gamma) step exposure gamma =
      updateLdrImage pw st step exposure gamma :=
  ⟨rfl, rfl, rfl⟩

theorem renderLoop_block (k : Nat) (st : Option Nat) (rest : List DriverEvent) :
    oneTaskInFlight st ([DriverEvent.ipuRender k, DriverEvent.waitHost,
      DriverEvent.swapBuffers, DriverEvent.submitHostTask k] ++ rest) =
    oneTaskInFlight (some k) rest := by
  simp [oneTaskInFlight]

theorem renderLoop_blocks_eval (n : Nat) :
    ∀ (st : Option Nat) (rest : List DriverEvent),
      oneTaskInFlight st ((List.range n).flatMap (fun i =>
        [DriverEvent.ipuRender (i + 1), DriverEvent.waitHost, DriverEvent.swapBuffers,
         DriverEvent.submitHostTask (i + 1)]) ++ rest) =
      oneTaskInFlight (if n = 0 then st else some n) rest := by
  induction n with
  | zero => intro st rest; simp
  | succ n ih =>
    intro st rest
    rw [List.range_succ, List.flatMap_append, List.append_assoc, ih]
    have hsingle : (([n] : List Nat).flatMap (fun i =>
        [DriverEvent.ipuRender (i + 1), DriverEvent.waitHost, DriverEvent.swapBuffers,
         DriverEvent.submitHostTask (i + 1)])) ++ rest =
        [DriverEvent.ipuRender (n + 1), DriverEvent.waitHost, DriverEvent.swapBuffers,
         DriverEvent.submitHostTask (n + 1)] ++ rest := by
      simp
    rw [hsingle, renderLoop_block]
    simp

/-- C8: on the headless render path, for every number of steps, the driver's
event sequence satisfies the one-task-in-flight discipline: every async
submit and every buffer swap happens only after the previously submitted
host task's completion has been observed, the trace ends with the final
join, and after it no task remains in flight (so the completion of the task
performing the last image save has been observed before the driver
proceeds). -/
theorem renderLoop_one_task_in_flight (steps : Nat) :
    oneTaskInFlight none (renderLoopTrace steps) = true ∧
    (renderLoopTrace steps).getLast? = some DriverEvent.waitHost := by
  constructor
  · unfold renderLoopTrace
    rw [renderLoop_blocks_eval]
    by_cases h : steps = 0 <;> simp [h, oneTaskInFlight]
  · exact List.getLast?_concat _

end IpuPathTrace
